import Mathlib

/-!
Shallow embedding of the runtime value/object core of the minijinja template
engine, covering the `Loop` object (src/minijinja/src/vm/loop_object.rs) and
the `Macro` object (src/minijinja/src/vm/macro_object.rs) together with the
slice of the `Value` data model that those two objects observe.

Machine integers: `usize`/`u64` are modelled as `Nat`; the only places where
the 64-bit width is observable in the embedded code are the never-iterated
sentinel `!0` (= 2^64 - 1) and `saturating_sub`, which coincides with `Nat`
subtraction.  Fallible operations return `Except Error _`; the one reachable
Rust panic (remainder with a zero divisor) is modelled by an explicit
`panicked` outcome.
-/

namespace Minijinja

/-- `usize::MAX` / `!0` on a 64-bit target: the never-iterated sentinel that
`Loop::get_field` compares the loaded index against. -/
def USIZE_MAX : Nat := 2 ^ 64 - 1

/-- The `AutoEscape` setting (crate::utils::AutoEscape).  `Macro::call` only
inspects whether it is `AutoEscape::None`, so the individual active modes are
collapsed to representatives. -/
inductive AutoEscape where
  | noEscape
  | html
  | json
deriving DecidableEq, Repr

/-- The three error kinds produced by the loop and macro objects
(crate::error::ErrorKind). -/
inductive ErrorKind where
  | invalidOperation
  | unknownMethod
  | tooManyArguments
deriving DecidableEq, Repr

/-- `Error::new(kind, detail)` carries a detail message; `Error::from(kind)`
carries none. -/
structure Error where
  kind : ErrorKind
  detail : Option String
deriving DecidableEq, Repr

/-- The slice of `ValueRepr` (src/minijinja/src/value/value.rs, declared via
value/mod.rs but not itself in the sources) observed by the loop and macro
objects: undefined, none, bools, integral numbers, strings carrying the
"safe from escaping" bit, sequences, and dynamic objects.  A dynamic object
is either a kwargs bundle (an ordered string-keyed map, recognised by
`as_kwargs`) or some other object, opaque here. -/
inductive Value where
  | undefined
  | null
  | bool (b : Bool)
  | int (n : Int)
  | str (s : String) (safe : Bool)
  | seq (items : List Value)
  | kwargsObj (pairs : List (String × Value))
  | dynObj (tag : Nat)

mutual

/-- Structural equality on values, mirroring `PartialEq` for `Value` on the
modelled fragment. -/
def Value.decEq : (a b : Value) → Decidable (a = b)
  | .undefined, .undefined => isTrue rfl
  | .null, .null => isTrue rfl
  | .bool a, .bool b =>
    if h : a = b then isTrue (by rw [h])
    else isFalse (fun hh => h (by injection hh))
  | .int a, .int b =>
    if h : a = b then isTrue (by rw [h])
    else isFalse (fun hh => h (by injection hh))
  | .str a sa, .str b sb =>
    if h : a = b then
      if h2 : sa = sb then isTrue (by rw [h, h2])
      else isFalse (fun hh => h2 (by injection hh))
    else isFalse (fun hh => h (by injection hh))
  | .seq a, .seq b =>
    match Value.decEqList a b with
    | isTrue h => isTrue (by rw [h])
    | isFalse h => isFalse (fun hh => h (by injection hh))
  | .kwargsObj a, .kwargsObj b =>
    match Value.decEqPairs a b with
    | isTrue h => isTrue (by rw [h])
    | isFalse h => isFalse (fun hh => h (by injection hh))
  | .dynObj a, .dynObj b =>
    if h : a = b then isTrue (by rw [h])
    else isFalse (fun hh => h (by injection hh))
  | .undefined, .null | .undefined, .bool _ | .undefined, .int _
  | .undefined, .str _ _ | .undefined, .seq _ | .undefined, .kwargsObj _
  | .undefined, .dynObj _ | .null, .undefined | .null, .bool _
  | .null, .int _ | .null, .str _ _ | .null, .seq _ | .null, .kwargsObj _
  | .null, .dynObj _ | .bool _, .undefined | .bool _, .null
  | .bool _, .int _ | .bool _, .str _ _ | .bool _, .seq _
  | .bool _, .kwargsObj _ | .bool _, .dynObj _ | .int _, .undefined
  | .int _, .null | .int _, .bool _ | .int _, .str _ _ | .int _, .seq _
  | .int _, .kwargsObj _ | .int _, .dynObj _ | .str _ _, .undefined
  | .str _ _, .null | .str _ _, .bool _ | .str _ _, .int _
  | .str _ _, .seq _ | .str _ _, .kwargsObj _ | .str _ _, .dynObj _
  | .seq _, .undefined | .seq _, .null | .seq _, .bool _ | .seq _, .int _
  | .seq _, .str _ _ | .seq _, .kwargsObj _ | .seq _, .dynObj _
  | .kwargsObj _, .undefined | .kwargsObj _, .null | .kwargsObj _, .bool _
  | .kwargsObj _, .int _ | .kwargsObj _, .str _ _ | .kwargsObj _, .seq _
  | .kwargsObj _, .dynObj _ | .dynObj _, .undefined | .dynObj _, .null
  | .dynObj _, .bool _ | .dynObj _, .int _ | .dynObj _, .str _ _
  | .dynObj _, .seq _ | .dynObj _, .kwargsObj _ =>
    isFalse (by intro h; exact Value.noConfusion h)
termination_by structural a => a

/-- Decidable equality for lists of values. -/
def Value.decEqList : (a b : List Value) → Decidable (a = b)
  | [], [] => isTrue rfl
  | x :: xs, y :: ys =>
    match Value.decEq x y, Value.decEqList xs ys with
    | isTrue h1, isTrue h2 => isTrue (by rw [h1, h2])
    | isFalse h1, _ => isFalse (fun hh => h1 (by injection hh))
    | isTrue _, isFalse h2 => isFalse (fun hh => h2 (by injection hh))
  | [], _ :: _ => isFalse (by intro h; exact List.noConfusion h)
  | _ :: _, [] => isFalse (by intro h; exact List.noConfusion h)
termination_by structural a => a

/-- Decidable equality for keyword-argument pair lists. -/
def Value.decEqPairs : (a b : List (String × Value)) → Decidable (a = b)
  | [], [] => isTrue rfl
  | (k1, v1) :: xs, (k2, v2) :: ys =>
    if hk : k1 = k2 then
      match Value.decEq v1 v2, Value.decEqPairs xs ys with
      | isTrue h1, isTrue h2 => isTrue (by rw [hk, h1, h2])
      | isFalse h1, _ =>
        isFalse (fun hh => by
          injection hh with hh1 hh2
          exact h1 (congrArg Prod.snd hh1))
      | isTrue _, isFalse h2 => isFalse (fun hh => h2 (by injection hh))
    else
      isFalse (fun hh => by
        injection hh with hh1 hh2
        exact hk (congrArg Prod.fst hh1))
  | [], _ :: _ => isFalse (by intro h; exact List.noConfusion h)
  | _ :: _, [] => isFalse (by intro h; exact List.noConfusion h)
termination_by structural a => a

end

instance : DecidableEq Value := Value.decEq

/-- `Value::as_str`: the string payload of a string value. -/
def Value.as_str : Value → Option String
  | .str s _ => some s
  | _ => Option.none

/-- `Value::from::<String>`: a plain (escapable) string value. -/
def Value.fromString (s : String) : Value := .str s false

/-- `Value::from_safe_string`: a string value exempt from escaping. -/
def Value.from_safe_string (s : String) : Value := .str s true

/-- `Object::as_kwargs`, modelled from the spec: the trailing
keyword-argument bundle is "detected by a reserved marker in the final
argument position"; exactly the kwargs objects answer `some`. -/
def Value.as_kwargs : Value → Option (List (String × Value))
  | .kwargsObj pairs => some pairs
  | _ => Option.none

/-!  ## Loop object (src/minijinja/src/vm/loop_object.rs) -/

/-- `LoopStatus` (loop_object.rs lines 23-30).  `len` is a plain `usize` —
there is no unknown-length variant in this code.  `idx` is the value held by
the `AtomicUsize` counter; the `Mutex` around `last_changed_value` only
serialises access and is dropped in this sequential model.  The
`value_triple` field is gated behind the `adjacent_loop_items` feature and is
not modelled. -/
structure LoopStatus where
  len : Nat
  idx : Nat
  depth : Nat
  last_changed_value : Option (List Value)
deriving DecidableEq

/-- Outcome of a stateful loop method call: a value plus the possibly updated
status, an error, or a Rust panic. -/
inductive MethodResult where
  | ok (v : Value) (st : LoopStatus)
  | err (e : Error)
  | panicked (msg : String)
deriving DecidableEq

namespace Loop

/-- `Loop::static_fields` (loop_object.rs lines 91-109), without the
`adjacent_loop_items` feature entries. -/
def static_fields : List String :=
  ["index0", "index", "length", "revindex", "revindex0", "first", "last",
   "depth", "depth0"]

/-- `Loop::get_field` (loop_object.rs lines 111-151).  The index is loaded
`as u64`; when it equals `!0` the loop never iterated and every attribute
reads as undefined.  `saturating_sub` is `Nat` subtraction.  After the
sentinel test `idx + 1` cannot overflow a `u64`, and `depth` is a nesting
level far below `usize::MAX`, so both additions are plain. -/
def get_field (lp : LoopStatus) (key : Value) : Option Value :=
  match key.as_str with
  | Option.none => Option.none
  | some name =>
    let idx := lp.idx
    -- if we never iterated, then all attributes are undefined
    if idx = USIZE_MAX then
      some Value.undefined
    else
      let len := lp.len
      match name with
      | "index0" => some (Value.int idx)
      | "index" => some (Value.int ((idx + 1 : Nat)))
      | "length" => some (Value.int len)
      | "revindex" => some (Value.int ((len - idx : Nat)))
      | "revindex0" => some (Value.int ((len - idx - 1 : Nat)))
      | "first" => some (Value.bool (idx == 0))
      | "last" => some (Value.bool (len == 0 || idx == len - 1))
      | "depth" => some (Value.int ((lp.depth + 1 : Nat)))
      | "depth0" => some (Value.int lp.depth)
      | _ => Option.none

/-- `Object::call` for `Loop` (loop_object.rs lines 47-52): calling the loop
value directly always fails. -/
def call (_lp : LoopStatus) (_args : List Value) : Except Error Value :=
  .error ⟨.invalidOperation,
    some "loop cannot be called if reassigned to different variable"⟩

/-- `Object::call_method` for `Loop` (loop_object.rs lines 54-77).  In the
`cycle` branch the source evaluates `args.get(idx % args.len())`; a Rust `%`
with a zero divisor panics, which the empty-argument guard makes explicit.
The subsequent `None` match arm of the source is kept even though it is
unreachable for non-empty `args`. -/
def call_method (lp : LoopStatus) (name : String) (args : List Value) :
    MethodResult :=
  if name = "changed" then
    let value := args
    if lp.last_changed_value ≠ some value then
      .ok (Value.bool true) { lp with last_changed_value := some value }
    else
      .ok (Value.bool false) lp
  else if name = "cycle" then
    if args.length = 0 then
      .panicked "attempt to calculate the remainder with a divisor of zero"
    else
      match args[lp.idx % args.length]? with
      | some arg => .ok arg lp
      | Option.none => .ok Value.undefined lp
  else
    .err ⟨.unknownMethod, some ("loop object has no method named " ++ name)⟩

end Loop

/-!  ## Macro object (src/minijinja/src/vm/macro_object.rs) -/

/-- `Macro` (macro_object.rs lines 175-186).  `state_id` is the identity
token of the render pass that defined the macro. -/
structure MacroData where
  name : String
  arg_spec : List String
  macro_ref_id : Nat
  state_id : Int
  closure : Value
  caller_reference : Bool
deriving DecidableEq

/-- Lookup in a kwargs bundle: `Kwargs::get(name).ok()`.  Modelled from the
spec: the bundle is an ordered string-keyed map with unique keys
(`crate::value::argtypes::Kwargs`, declared via value/mod.rs but not itself
in the sources); `get` on a `&Value` target succeeds exactly when the key is
present. -/
def kwargsGet (pairs : List (String × Value)) (name : String) : Option Value :=
  (pairs.find? (fun p => p.1 == name)).map Prod.snd

/-- The `let kwarg = match kwargs { Some(kwargs) => kwargs.get(name).ok(),
_ => None }` step of `Macro::call` (macro_object.rs lines 250-253). -/
def kwargsGetOpt (kw : Option (List (String × Value))) (name : String) :
    Option Value :=
  match kw with
  | some pairs => kwargsGet pairs name
  | Option.none => Option.none

/-- The argument split of `Macro::call` (macro_object.rs lines 235-241): when
the final argument is an object answering `as_kwargs`, it is split off as the
keyword bundle; a non-object (or non-kwargs object) final argument leaves the
positional list unchanged. -/
def splitOffKwargs (args : List Value) :
    List Value × Option (List (String × Value)) :=
  match args.getLast? with
  | some last =>
    match last.as_kwargs with
    | some kw => (args.dropLast, some kw)
    | Option.none => (args, Option.none)
  | Option.none => (args, Option.none)

/-- The parameter-binding loop of `Macro::call` (macro_object.rs lines
247-268), iterating over `arg_spec` with its index.  Returns the bound
`arg_values` together with the set `kwargs_used` of parameter names consumed
from the keyword bundle (membership is all that the later unknown-key scan
observes), or the first `duplicate argument` error. -/
def bindLoop (posArgs : List Value) (kw : Option (List (String × Value))) :
    List String → Nat → List Value → List String →
    Except Error (List Value × List String)
  | [], _, argValues, kwargsUsed => .ok (argValues.reverse, kwargsUsed)
  | name :: rest, idx, argValues, kwargsUsed =>
    -- `let kwarg = match kwargs {...}` is inlined as `kwargsGetOpt kw name`
    match posArgs[idx]?, kwargsGetOpt kw name with
    | some _, some _ =>
      .error ⟨.tooManyArguments,
        some ("duplicate argument `" ++ name ++ "`")⟩
    | some arg, Option.none =>
      bindLoop posArgs kw rest (idx + 1) (arg :: argValues) kwargsUsed
    | Option.none, some kwv =>
      bindLoop posArgs kw rest (idx + 1) (kwv :: argValues) (name :: kwargsUsed)
    | Option.none, Option.none =>
      bindLoop posArgs kw rest (idx + 1) (Value.undefined :: argValues) kwargsUsed

/-- The string keys of an optional kwargs bundle, in insertion order
(`kwargs.values.keys().filter_map(|x| x.as_str())`; every modelled key is a
string). -/
def kwKeys : Option (List (String × Value)) → List String
  | some pairs => pairs.map Prod.fst
  | Option.none => []

/-- Modelled from the spec (the refinement side of the binding claim): "bind
parameters left to right: each declared parameter takes its positional value
if present, else its same-named keyword value if present, else undefined". -/
def specBindingRule (posArgs : List Value)
    (kw : Option (List (String × Value))) : List String → Nat → List Value
  | [], _ => []
  | name :: rest, idx =>
    (match posArgs[idx]?, kwargsGetOpt kw name with
     | some arg, _ => arg
     | Option.none, some kwv => kwv
     | Option.none, Option.none => Value.undefined) ::
    specBindingRule posArgs kw rest (idx + 1)

/-- Outcome of the argument-processing prefix of `Macro::call`: an error, or
the bound `arg_values` and resolved `caller` with which the source proceeds
into `vm.eval_macro`. -/
inductive CallPre where
  | err (e : Error)
  | run (arg_values : List Value) (caller : Option Value)
deriving DecidableEq

namespace MacroData

/-- The argument-processing prefix of `Object::call` for `Macro`
(macro_object.rs lines 214-318), embedded up to the external
`vm.eval_macro` re-entry, whose inputs it returns:
method check, render-pass identity check, kwargs split, positional-excess
check, parameter binding, caller-slot resolution, unknown-keyword scan. -/
def call_pre (m : MacroData) (stateId : Int) (method : Option String)
    (args : List Value) : CallPre :=
  if method.isSome then
    .err ⟨.invalidOperation, some "cannot call methods on macro"⟩
  else if stateId ≠ m.state_id then
    -- we can only call macros that point to loaded template state
    .err ⟨.invalidOperation,
      some "cannot call this macro. template state went away."⟩
  else
    let split := splitOffKwargs args
    let posArgs := split.1
    let kwargs := split.2
    if posArgs.length > m.arg_spec.length then
      .err ⟨.tooManyArguments, Option.none⟩
    else
      match bindLoop posArgs kwargs m.arg_spec 0 [] [] with
      | .error e => .err e
      | .ok (argValues, kwargsUsed) =>
        let kwargsUsed :=
          if m.caller_reference then "caller" :: kwargsUsed else kwargsUsed
        let caller :=
          if m.caller_reference then
            some ((kwargsGetOpt kwargs "caller").getD Value.undefined)
          else Option.none
        match kwargs with
        | some pairs =>
          match pairs.find? (fun p => ! kwargsUsed.contains p.1) with
          | some p =>
            .err ⟨.tooManyArguments,
              some ("unknown keyword argument `" ++ p.1 ++ "`")⟩
          | Option.none => .run argValues caller
        | Option.none => .run argValues caller

/-- `Object::call` for `Macro` in full: the argument-processing prefix
composed with the external evaluator re-entry (`vm.eval_macro`, writing the
body's rendering into a private string buffer), abstracted as `evalBody`,
and the final wrapping of the rendered string (macro_object.rs lines
320-324): escape-exempt when auto-escape is active, plain otherwise. -/
def call (m : MacroData) (stateId : Int) (autoEscape : AutoEscape)
    (evalBody : List Value → Option Value → Except Error String)
    (method : Option String) (args : List Value) : Except Error Value :=
  match call_pre m stateId method args with
  | .err e => .error e
  | .run argValues caller =>
    match evalBody argValues caller with
    | .error e => .error e
    | .ok rv =>
      .ok (if autoEscape ≠ AutoEscape.noEscape then
             Value.from_safe_string rv
           else
             Value.fromString rv)

/-- `Object::get_value` for `Macro` (macro_object.rs lines 203-212).
`from_object_iter` over `arg_spec` yields the parameter names as a sequence
of string values. -/
def get_value (m : MacroData) (key : Value) : Option Value :=
  match key.as_str with
  | some "name" => some (Value.fromString m.name)
  | some "arguments" =>
    some (Value.seq (m.arg_spec.map (fun s => Value.fromString s)))
  | some "caller" => some (Value.bool m.caller_reference)
  | _ => Option.none

/-- `Object::enumeration` for `Macro` (macro_object.rs lines 199-201). -/
def enumeration (_m : MacroData) : List String := ["name", "arguments", "caller"]

end MacroData

/-!  ## Theorems -/

/-!  ### Properties of the parameter-binding loop -/

/-- A key that occurs in a kwargs bundle is found by `kwargsGet`. -/
theorem kwargsGet_isSome_of_mem (pairs : List (String × Value)) (k : String)
    (h : k ∈ pairs.map Prod.fst) : (kwargsGet pairs k).isSome := by
  induction pairs with
  | nil => simp at h
  | cons p rest ih =>
    unfold kwargsGet
    by_cases hp : p.1 = k
    · simp [List.find?_cons, hp]
    · simp only [List.map_cons, List.mem_cons] at h
      rcases h with h | h
      · exact absurd h.symm hp
      · have := ih h
        unfold kwargsGet at this
        simpa [List.find?_cons, hp] using this

/-- If the binding loop succeeds, no spec position has both a positional and
a keyword value. -/
theorem bindLoop_ok_no_dup (posArgs : List Value)
    (kw : Option (List (String × Value))) :
    ∀ (spec : List String) (idx : Nat) (acc : List Value) (used : List String)
      (out : List Value × List String),
      bindLoop posArgs kw spec idx acc used = .ok out →
      ∀ j, j < spec.length →
        ¬(posArgs[idx + j]?.isSome ∧
          (kwargsGetOpt kw (spec.getD j "")).isSome) := by
  intro spec
  induction spec with
  | nil =>
    intro idx acc used out _ j hj
    simp at hj
  | cons name rest ih =>
    intro idx acc used out hok j hj
    unfold bindLoop at hok
    split at hok
    · exact absurd hok (by simp)
    · rename_i a heq1 heq2
      match j with
      | 0 =>
        rw [Nat.add_zero, List.getD_cons_zero, heq2]
        simp
      | j + 1 =>
        have := ih (idx + 1) _ _ _ hok j (by simpa using hj)
        rw [List.getD_cons_succ]
        rw [(by omega : idx + 1 + j = idx + (j + 1))] at this
        exact this
    · rename_i v heq1 heq2
      match j with
      | 0 =>
        rw [Nat.add_zero, heq1]
        simp
      | j + 1 =>
        have := ih (idx + 1) _ _ _ hok j (by simpa using hj)
        rw [List.getD_cons_succ]
        rw [(by omega : idx + 1 + j = idx + (j + 1))] at this
        exact this
    · rename_i heq1 heq2
      match j with
      | 0 =>
        rw [Nat.add_zero, heq1]
        simp
      | j + 1 =>
        have := ih (idx + 1) _ _ _ hok j (by simpa using hj)
        rw [List.getD_cons_succ]
        rw [(by omega : idx + 1 + j = idx + (j + 1))] at this
        exact this

/-- If no spec position has both a positional and a keyword value, the
binding loop succeeds. -/
theorem bindLoop_ok_of_no_dup (posArgs : List Value)
    (kw : Option (List (String × Value))) :
    ∀ (spec : List String) (idx : Nat) (acc : List Value) (used : List String),
      (∀ j, j < spec.length →
        ¬(posArgs[idx + j]?.isSome ∧
          (kwargsGetOpt kw (spec.getD j "")).isSome)) →
      ∃ out, bindLoop posArgs kw spec idx acc used = .ok out := by
  intro spec
  induction spec with
  | nil =>
    intro idx acc used _
    exact ⟨_, rfl⟩
  | cons name rest ih =>
    intro idx acc used hnd
    unfold bindLoop
    have h0 := hnd 0 (by simp)
    rw [Nat.add_zero, List.getD_cons_zero] at h0
    have hrest : ∀ j, j < rest.length →
        ¬(posArgs[idx + 1 + j]?.isSome ∧
          (kwargsGetOpt kw (rest.getD j "")).isSome) := by
      intro j hj
      have := hnd (j + 1) (by simpa using hj)
      rw [List.getD_cons_succ] at this
      rw [(by omega : idx + 1 + j = idx + (j + 1))]
      exact this
    rcases h1 : posArgs[idx]? with _ | a <;>
      rcases h2 : kwargsGetOpt kw name with _ | v
    · exact ih (idx + 1) _ _ hrest
    · exact ih (idx + 1) _ _ hrest
    · exact ih (idx + 1) _ _ hrest
    · rw [h1, h2] at h0
      simp at h0

/-- An error from the binding loop is the duplicate-argument error, naming a
parameter that receives both a positional and a keyword value. -/
theorem bindLoop_error_shape (posArgs : List Value)
    (kw : Option (List (String × Value))) :
    ∀ (spec : List String) (idx : Nat) (acc : List Value) (used : List String)
      (e : Error),
      bindLoop posArgs kw spec idx acc used = .error e →
      ∃ j, j < spec.length ∧ posArgs[idx + j]?.isSome ∧
        (kwargsGetOpt kw (spec.getD j "")).isSome ∧
        e = ⟨.tooManyArguments,
          some ("duplicate argument `" ++ spec.getD j "" ++ "`")⟩ := by
  intro spec
  induction spec with
  | nil =>
    intro idx acc used e he
    exact absurd he (by simp [bindLoop])
  | cons name rest ih =>
    intro idx acc used e he
    unfold bindLoop at he
    split at he
    · rename_i a v heq1 heq2
      refine ⟨0, by simp, ?_, ?_, ?_⟩
      · rw [Nat.add_zero, heq1]; simp
      · rw [List.getD_cons_zero, heq2]; simp
      · simpa using he.symm
    · rcases ih (idx + 1) _ _ _ he with ⟨j, hj, hpos, hkw, hee⟩
      refine ⟨j + 1, by simpa using hj, ?_, ?_, ?_⟩
      · rw [(by omega : idx + (j + 1) = idx + 1 + j)]; exact hpos
      · rw [List.getD_cons_succ]; exact hkw
      · rw [List.getD_cons_succ]; exact hee
    · rcases ih (idx + 1) _ _ _ he with ⟨j, hj, hpos, hkw, hee⟩
      refine ⟨j + 1, by simpa using hj, ?_, ?_, ?_⟩
      · rw [(by omega : idx + (j + 1) = idx + 1 + j)]; exact hpos
      · rw [List.getD_cons_succ]; exact hkw
      · rw [List.getD_cons_succ]; exact hee
    · rcases ih (idx + 1) _ _ _ he with ⟨j, hj, hpos, hkw, hee⟩
      refine ⟨j + 1, by simpa using hj, ?_, ?_, ?_⟩
      · rw [(by omega : idx + (j + 1) = idx + 1 + j)]; exact hpos
      · rw [List.getD_cons_succ]; exact hkw
      · rw [List.getD_cons_succ]; exact hee

/-- Shift an existential over positions of a non-empty list. -/
theorem exists_lt_succ_shift (n : Nat) (Q : Nat → Prop) :
    (∃ j, j < n + 1 ∧ Q j) ↔ (Q 0 ∨ ∃ j, j < n ∧ Q (j + 1)) := by
  constructor
  · rintro ⟨j, hj, hq⟩
    match j with
    | 0 => exact Or.inl hq
    | j + 1 => exact Or.inr ⟨j, by omega, hq⟩
  · rintro (h | ⟨j, hj, hq⟩)
    · exact ⟨0, by omega, h⟩
    · exact ⟨j + 1, by omega, hq⟩

/-- Membership in the `kwargs_used` accumulator after a successful binding
loop: exactly the incoming names plus the parameter names that were bound
from the keyword bundle. -/
theorem bindLoop_used_mem (posArgs : List Value)
    (kw : Option (List (String × Value))) :
    ∀ (spec : List String) (idx : Nat) (acc : List Value) (used : List String)
      (vals : List Value) (used' : List String) (k : String),
      bindLoop posArgs kw spec idx acc used = .ok (vals, used') →
      (k ∈ used' ↔ k ∈ used ∨ ∃ j, j < spec.length ∧ spec.getD j "" = k ∧
        posArgs[idx + j]? = Option.none ∧
        (kwargsGetOpt kw k).isSome) := by
  intro spec
  induction spec with
  | nil =>
    intro idx acc used vals used' k hok
    simp only [bindLoop, Except.ok.injEq, Prod.mk.injEq] at hok
    obtain ⟨h1, h2⟩ := hok
    subst h2
    simp
  | cons name rest ih =>
    intro idx acc used vals used' k hok
    unfold bindLoop at hok
    split at hok
    · exact absurd hok (by simp)
    · rename_i a heq1 heq2
      rw [ih (idx + 1) _ _ _ _ k hok]
      simp only [List.length_cons]
      rw [exists_lt_succ_shift]
      constructor
      · rintro (h | ⟨j, hj, hq1, hq2, hq3⟩)
        · exact Or.inl h
        · refine Or.inr (Or.inr ⟨j, hj, ?_, ?_, hq3⟩)
          · rw [List.getD_cons_succ]; exact hq1
          · rw [(by omega : idx + (j + 1) = idx + 1 + j)]; exact hq2
      · rintro (h | ⟨hq1, hq2, hq3⟩ | ⟨j, hj, hq1, hq2, hq3⟩)
        · exact Or.inl h
        · rw [List.getD_cons_zero] at hq1
          rw [Nat.add_zero, heq1] at hq2
          exact absurd hq2 (by simp)
        · refine Or.inr ⟨j, hj, ?_, ?_, hq3⟩
          · rw [List.getD_cons_succ] at hq1; exact hq1
          · rw [(by omega : idx + 1 + j = idx + (j + 1))]; exact hq2
    · rename_i v heq1 heq2
      rw [ih (idx + 1) _ _ _ _ k hok]
      simp only [List.length_cons, List.mem_cons]
      rw [exists_lt_succ_shift]
      constructor
      · rintro ((h | h) | ⟨j, hj, hq1, hq2, hq3⟩)
        · refine Or.inr (Or.inl ⟨?_, ?_, ?_⟩)
          · rw [List.getD_cons_zero]; exact h.symm
          · rw [Nat.add_zero]; exact heq1
          · subst h; simp [heq2]
        · exact Or.inl h
        · refine Or.inr (Or.inr ⟨j, hj, ?_, ?_, hq3⟩)
          · rw [List.getD_cons_succ]; exact hq1
          · rw [(by omega : idx + (j + 1) = idx + 1 + j)]; exact hq2
      · rintro (h | ⟨hq1, hq2, hq3⟩ | ⟨j, hj, hq1, hq2, hq3⟩)
        · exact Or.inl (Or.inr h)
        · rw [List.getD_cons_zero] at hq1
          exact Or.inl (Or.inl hq1.symm)
        · refine Or.inr ⟨j, hj, ?_, ?_, hq3⟩
          · rw [List.getD_cons_succ] at hq1; exact hq1
          · rw [(by omega : idx + 1 + j = idx + (j + 1))]; exact hq2
    · rename_i heq1 heq2
      rw [ih (idx + 1) _ _ _ _ k hok]
      simp only [List.length_cons]
      rw [exists_lt_succ_shift]
      constructor
      · rintro (h | ⟨j, hj, hq1, hq2, hq3⟩)
        · exact Or.inl h
        · refine Or.inr (Or.inr ⟨j, hj, ?_, ?_, hq3⟩)
          · rw [List.getD_cons_succ]; exact hq1
          · rw [(by omega : idx + (j + 1) = idx + 1 + j)]; exact hq2
      · rintro (h | ⟨hq1, hq2, hq3⟩ | ⟨j, hj, hq1, hq2, hq3⟩)
        · exact Or.inl h
        · rw [List.getD_cons_zero] at hq1
          subst hq1
          rw [heq2] at hq3
          exact absurd hq3 (by simp)
        · refine Or.inr ⟨j, hj, ?_, ?_, hq3⟩
          · rw [List.getD_cons_succ] at hq1; exact hq1
          · rw [(by omega : idx + 1 + j = idx + (j + 1))]; exact hq2

/-- The values bound by a successful binding loop are the accumulator
followed by the spec's left-to-right binding rule. -/
theorem bindLoop_vals_eq (posArgs : List Value)
    (kw : Option (List (String × Value))) :
    ∀ (spec : List String) (idx : Nat) (acc : List Value) (used : List String)
      (vals : List Value) (used' : List String),
      bindLoop posArgs kw spec idx acc used = .ok (vals, used') →
      vals = acc.reverse ++ specBindingRule posArgs kw spec idx := by
  intro spec
  induction spec with
  | nil =>
    intro idx acc used vals used' hok
    simp only [bindLoop, Except.ok.injEq, Prod.mk.injEq] at hok
    simp [specBindingRule, hok.1.symm]
  | cons name rest ih =>
    intro idx acc used vals used' hok
    unfold bindLoop at hok
    split at hok
    · exact absurd hok (by simp)
    · rename_i a heq1 heq2
      have hv := ih (idx + 1) _ _ _ _ hok
      rw [hv]
      simp only [specBindingRule]
      rw [heq1, heq2]
      simp
    · rename_i v heq1 heq2
      have hv := ih (idx + 1) _ _ _ _ hok
      rw [hv]
      simp only [specBindingRule]
      rw [heq1, heq2]
      simp
    · rename_i heq1 heq2
      have hv := ih (idx + 1) _ _ _ _ hok
      rw [hv]
      simp only [specBindingRule]
      rw [heq1, heq2]
      simp

/-- The binding rule binds one value per declared parameter. -/
theorem specBindingRule_length (posArgs : List Value)
    (kw : Option (List (String × Value))) :
    ∀ (spec : List String) (idx : Nat),
      (specBindingRule posArgs kw spec idx).length = spec.length := by
  intro spec
  induction spec with
  | nil => intro idx; rfl
  | cons name rest ih =>
    intro idx
    simp only [specBindingRule]
    simp [ih (idx + 1)]

/-- The value bound at position `j` by the binding rule: the positional value
if present, else the same-named keyword value, else undefined. -/
theorem specBindingRule_get (posArgs : List Value)
    (kw : Option (List (String × Value))) :
    ∀ (spec : List String) (idx j : Nat), j < spec.length →
      (specBindingRule posArgs kw spec idx)[j]? =
        some ((posArgs[idx + j]?.orElse
          (fun _ => kwargsGetOpt kw (spec.getD j ""))).getD Value.undefined) := by
  intro spec
  induction spec with
  | nil => intro idx j hj; simp at hj
  | cons name rest ih =>
    intro idx j hj
    match j with
    | 0 =>
      simp only [specBindingRule]
      rw [List.getD_cons_zero, Nat.add_zero]
      rcases h1 : posArgs[idx]? with _ | a <;>
        rcases h2 : kwargsGetOpt kw name with _ | v <;>
        simp [h1, h2]
    | j + 1 =>
      simp only [specBindingRule]
      rw [List.getD_cons_succ]
      have := ih (idx + 1) j (by simpa using hj)
      rw [(by omega : idx + (j + 1) = idx + 1 + j)]
      simpa using this

/-- Optional indexing succeeds exactly within bounds. -/
theorem getElem?_isSome_iff {α : Type} (l : List α) (n : Nat) :
    l[n]?.isSome ↔ n < l.length := by
  constructor
  · intro h
    by_contra hc
    rw [List.getElem?_eq_none (by omega)] at h
    simp at h
  · intro h
    rw [List.getElem?_eq_getElem h]
    rfl

/-- `Macro::call` after the method-name and render-pass identity checks
pass: the remaining argument processing, with the split positional/keyword
arguments made explicit. -/
theorem call_pre_cases (m : MacroData) (stateId : Int) (args : List Value)
    (hid : stateId = m.state_id) :
    m.call_pre stateId Option.none args =
      (if (splitOffKwargs args).1.length > m.arg_spec.length then
        .err ⟨.tooManyArguments, Option.none⟩
      else
        match bindLoop (splitOffKwargs args).1 (splitOffKwargs args).2
            m.arg_spec 0 [] [] with
        | .error e => .err e
        | .ok (argValues, kwargsUsed) =>
          let kwargsUsed :=
            if m.caller_reference then "caller" :: kwargsUsed else kwargsUsed
          let caller :=
            if m.caller_reference then
              some ((kwargsGetOpt (splitOffKwargs args).2 "caller").getD
                Value.undefined)
            else Option.none
          match (splitOffKwargs args).2 with
          | some pairs =>
            match pairs.find? (fun p => ! kwargsUsed.contains p.1) with
            | some p =>
              .err ⟨.tooManyArguments,
                some ("unknown keyword argument `" ++ p.1 ++ "`")⟩
            | Option.none => .run argValues caller
          | Option.none => .run argValues caller) := by
  simp only [MacroData.call_pre]
  rw [if_neg (by simp), if_neg (by simp [hid])]

/-- C3: given the method-name and identity checks pass, the macro call fails
with `TooManyArguments` exactly when the positional arguments (after the
trailing keyword bundle is split off) outnumber the declared parameters, or
some declared parameter receives both a positional and a keyword value, or
some keyword key is consumed neither by parameter binding nor by the
reserved `caller` slot; and any detailed `TooManyArguments` error names an
offending parameter or keyword key. -/
theorem macro_too_many_arguments_iff (m : MacroData) (stateId : Int)
    (args : List Value) (hid : stateId = m.state_id) :
    ((∃ d, m.call_pre stateId Option.none args =
        .err ⟨.tooManyArguments, d⟩) ↔
      ((splitOffKwargs args).1.length > m.arg_spec.length ∨
       (∃ i, i < m.arg_spec.length ∧ i < (splitOffKwargs args).1.length ∧
         (kwargsGetOpt (splitOffKwargs args).2 (m.arg_spec.getD i "")).isSome) ∨
       (∃ k, k ∈ kwKeys (splitOffKwargs args).2 ∧
         (∀ j, j < m.arg_spec.length → m.arg_spec.getD j "" = k →
           j < (splitOffKwargs args).1.length) ∧
         ¬(m.caller_reference ∧ k = "caller")))) ∧
    (∀ d, m.call_pre stateId Option.none args =
        .err ⟨.tooManyArguments, some d⟩ →
      ((∃ name, d = "duplicate argument `" ++ name ++ "`" ∧
        ∃ i, i < m.arg_spec.length ∧ m.arg_spec.getD i "" = name ∧
          i < (splitOffKwargs args).1.length ∧
          (kwargsGetOpt (splitOffKwargs args).2 name).isSome) ∨
       (∃ k, d = "unknown keyword argument `" ++ k ++ "`" ∧
        k ∈ kwKeys (splitOffKwargs args).2 ∧
        (∀ j, j < m.arg_spec.length → m.arg_spec.getD j "" = k →
          j < (splitOffKwargs args).1.length) ∧
        ¬(m.caller_reference ∧ k = "caller")))) := by
  rcases hsplit : splitOffKwargs args with ⟨pos, kw⟩
  have hcases := call_pre_cases m stateId args hid
  rw [hsplit] at hcases
  dsimp only at hcases
  by_cases hA : pos.length > m.arg_spec.length
  · rw [if_pos hA] at hcases
    constructor
    · exact ⟨fun _ => Or.inl hA, fun _ => ⟨Option.none, hcases⟩⟩
    · intro d hd
      rw [hcases] at hd
      simp at hd
  · rcases hbind : bindLoop pos kw m.arg_spec 0 [] [] with e | ⟨argVals, used0⟩
    · -- duplicate-argument error from the binding loop
      rw [if_neg hA, hbind] at hcases
      dsimp only at hcases
      obtain ⟨j, hj, hpos, hkw, he⟩ :=
        bindLoop_error_shape pos kw m.arg_spec 0 [] [] e hbind
      rw [Nat.zero_add] at hpos
      have hjpos : j < pos.length := (getElem?_isSome_iff pos j).mp hpos
      constructor
      · constructor
        · intro _
          exact Or.inr (Or.inl ⟨j, hj, hjpos, hkw⟩)
        · intro _
          exact ⟨some ("duplicate argument `" ++ m.arg_spec.getD j "" ++ "`"),
            by rw [hcases, he]⟩
      · intro d hd
        rw [hcases, he] at hd
        simp only [CallPre.err.injEq, Error.mk.injEq, Option.some.injEq,
          true_and] at hd
        exact Or.inl ⟨m.arg_spec.getD j "", hd.symm, j, hj, rfl, hjpos, hkw⟩
    · -- the binding loop succeeded
      have hnodup := bindLoop_ok_no_dup pos kw m.arg_spec 0 [] []
        (argVals, used0) hbind
      have hused := fun k =>
        bindLoop_used_mem pos kw m.arg_spec 0 [] [] argVals used0 k hbind
      have hNoB : ¬(∃ i, i < m.arg_spec.length ∧ i < pos.length ∧
          (kwargsGetOpt kw (m.arg_spec.getD i "")).isSome) := by
        rintro ⟨i, hi, hilt, hik⟩
        exact hnodup i hi ⟨by
          rw [Nat.zero_add]
          exact (getElem?_isSome_iff pos i).mpr hilt, hik⟩
      rcases kw with _ | pairs
      · -- no keyword bundle: the call proceeds to evaluation
        rw [if_neg hA, hbind] at hcases
        dsimp only at hcases
        constructor
        · constructor
          · intro ⟨d, hd⟩
            rw [hcases] at hd
            simp at hd
          · rintro (h | h | h)
            · exact absurd h hA
            · exact absurd h hNoB
            · obtain ⟨k, hk, _, _⟩ := h
              simp [kwKeys] at hk
        · intro d hd
          rw [hcases] at hd
          simp at hd
      · -- keyword bundle present: the unknown-key scan decides
        rw [if_neg hA, hbind] at hcases
        dsimp only at hcases
        have husedC : ∀ k : String,
            (k ∈ (if m.caller_reference then "caller" :: used0 else used0)) ↔
              ((m.caller_reference ∧ k = "caller") ∨
               ∃ j, j < m.arg_spec.length ∧ m.arg_spec.getD j "" = k ∧
                 pos[j]? = Option.none ∧
                 (kwargsGetOpt (some pairs) k).isSome) := by
          intro k
          by_cases hc : m.caller_reference
          · rw [if_pos hc]
            simp only [List.mem_cons]
            rw [hused k]
            constructor
            · rintro (h | h | h)
              · exact Or.inl ⟨hc, h⟩
              · simp at h
              · obtain ⟨j, hj, hq1, hq2, hq3⟩ := h
                rw [Nat.zero_add] at hq2
                exact Or.inr ⟨j, hj, hq1, hq2, hq3⟩
            · rintro (⟨_, h⟩ | ⟨j, hj, hq1, hq2, hq3⟩)
              · exact Or.inl h
              · refine Or.inr (Or.inr ⟨j, hj, hq1, ?_, hq3⟩)
                rw [Nat.zero_add]
                exact hq2
          · rw [if_neg hc]
            rw [hused k]
            constructor
            · rintro (h | h)
              · simp at h
              · obtain ⟨j, hj, hq1, hq2, hq3⟩ := h
                rw [Nat.zero_add] at hq2
                exact Or.inr ⟨j, hj, hq1, hq2, hq3⟩
            · rintro (⟨hcr, _⟩ | ⟨j, hj, hq1, hq2, hq3⟩)
              · exact absurd hcr hc
              · refine Or.inr ⟨j, hj, hq1, ?_, hq3⟩
                rw [Nat.zero_add]
                exact hq2
        have hCk : ∀ k : String, k ∈ kwKeys (some pairs) →
            ((¬k ∈ (if m.caller_reference then "caller" :: used0 else used0)) ↔
              ((∀ j, j < m.arg_spec.length → m.arg_spec.getD j "" = k →
                 j < pos.length) ∧ ¬(m.caller_reference ∧ k = "caller"))) := by
          intro k hk
          rw [husedC k]
          simp only [kwKeys] at hk
          have hks : (kwargsGetOpt (some pairs) k).isSome := by
            simpa [kwargsGetOpt] using kwargsGet_isSome_of_mem pairs k hk
          constructor
          · intro h
            push_neg at h
            obtain ⟨hh1, hh2⟩ := h
            refine ⟨?_, fun hc => (hh1 hc.1) hc.2⟩
            intro j hj hname
            by_contra hge
            exact (hh2 j hj hname (by
              rw [List.getElem?_eq_none (by omega)])) hks
          · rintro ⟨hh1, hh2⟩ (hcal | ⟨j, hj, hname, hnone, _⟩)
            · exact hh2 hcal
            · have hlt := hh1 j hj hname
              rw [List.getElem?_eq_getElem hlt] at hnone
              exact absurd hnone (by simp)
        rcases hscan : pairs.find?
            (fun p => ! (if m.caller_reference then
              "caller" :: used0 else used0).contains p.1) with _ | p
        · -- every key consumed: the call proceeds to evaluation
          rw [hscan] at hcases
          have hallused := List.find?_eq_none.mp hscan
          constructor
          · constructor
            · intro ⟨d, hd⟩
              rw [hcases] at hd
              simp at hd
            · rintro (h | h | ⟨k, hk, hC1, hC2⟩)
              · exact absurd h hA
              · exact absurd h hNoB
              · simp only [kwKeys, List.mem_map] at hk
                obtain ⟨q, hq, hq1⟩ := hk
                have hqc := hallused q hq
                simp only [Bool.not_eq_true', Bool.not_not,
                  Bool.not_eq_false] at hqc
                have hmem : q.1 ∈ (if m.caller_reference then
                    "caller" :: used0 else used0) :=
                  List.elem_iff.mp (by simpa using hqc)
                rw [hq1] at hmem
                exact absurd hmem ((hCk k (by
                  simp only [kwKeys, List.mem_map]
                  exact ⟨q, hq, hq1⟩)).mpr ⟨hC1, hC2⟩)
          · intro d hd
            rw [hcases] at hd
            simp at hd
        · -- an unconsumed key: the unknown-keyword error
          rw [hscan] at hcases
          have hpfound := List.find?_some hscan
          have hpmem := List.mem_of_find?_eq_some hscan
          have hkmem : p.1 ∈ kwKeys (some pairs) := by
            simp only [kwKeys, List.mem_map]
            exact ⟨p, hpmem, rfl⟩
          have hnotused : ¬p.1 ∈ (if m.caller_reference then
              "caller" :: used0 else used0) := by
            intro hmem
            have helem := List.elem_iff.mpr hmem
            simp only [Bool.not_eq_eq_eq_not, Bool.not_true] at hpfound
            simp only [List.contains] at hpfound
            rw [helem] at hpfound
            simp at hpfound
          obtain ⟨hC1, hC2⟩ := (hCk p.1 hkmem).mp hnotused
          constructor
          · constructor
            · intro _
              exact Or.inr (Or.inr ⟨p.1, hkmem, hC1, hC2⟩)
            · intro _
              exact ⟨some ("unknown keyword argument `" ++ p.1 ++ "`"), hcases⟩
          · intro d hd
            rw [hcases] at hd
            simp only [CallPre.err.injEq, Error.mk.injEq, Option.some.injEq,
              true_and] at hd
            exact Or.inr ⟨p.1, hd.symm, hkmem, hC1, hC2⟩

/-- Witness for C3: the unknown keyword `z` on a macro with parameters
`a, b` makes the call fail with `TooManyArguments`. -/
theorem macro_too_many_arguments_iff_witness :
    ∃ d, MacroData.call_pre ⟨"m", ["a", "b"], 0, 7, Value.null, false⟩ 7
        Option.none [Value.kwargsObj [("z", Value.int 9)]] =
      .err ⟨.tooManyArguments, d⟩ :=
  (macro_too_many_arguments_iff ⟨"m", ["a", "b"], 0, 7, Value.null, false⟩ 7
    [Value.kwargsObj [("z", Value.int 9)]] rfl).1.mpr (by decide)

/-- C4: on every successful macro invocation the parameters are bound left to
right — the i-th declared parameter receives the i-th positional argument if
present, else the same-named keyword value if present, else undefined — and
in particular `m(a, b)` called as `m(1)` binds a=1, b=undefined, while
`m(1, b=5)` binds a=1, b=5. -/
theorem macro_binding_left_to_right (m : MacroData) (stateId : Int)
    (args argValues : List Value) (caller : Option Value)
    (h : m.call_pre stateId Option.none args = .run argValues caller) :
    (argValues.length = m.arg_spec.length ∧
     ∀ i, i < m.arg_spec.length →
       argValues[i]? =
         some (((splitOffKwargs args).1[i]?.orElse
           (fun _ => kwargsGetOpt (splitOffKwargs args).2
             (m.arg_spec.getD i ""))).getD Value.undefined)) ∧
    MacroData.call_pre ⟨"m", ["a", "b"], 0, 0, Value.null, false⟩ 0 Option.none
        [Value.int 1] = .run [Value.int 1, Value.undefined] Option.none ∧
    MacroData.call_pre ⟨"m", ["a", "b"], 0, 0, Value.null, false⟩ 0 Option.none
        [Value.int 1, Value.kwargsObj [("b", Value.int 5)]] =
      .run [Value.int 1, Value.int 5] Option.none := by
  refine ⟨?_, by decide, by decide⟩
  have hid : stateId = m.state_id := by
    by_contra hne
    have hfail : m.call_pre stateId Option.none args =
        .err ⟨.invalidOperation,
          some "cannot call this macro. template state went away."⟩ := by
      simp only [MacroData.call_pre]
      rw [if_neg (by simp), if_pos hne]
    rw [hfail] at h
    exact absurd h (by simp)
  have hcases := call_pre_cases m stateId args hid
  rcases hsplit : splitOffKwargs args with ⟨pos, kw⟩
  rw [hsplit] at hcases
  dsimp only at hcases
  suffices hsuff : argValues = specBindingRule pos kw m.arg_spec 0 by
    constructor
    · rw [hsuff]
      exact specBindingRule_length pos kw m.arg_spec 0
    · intro i hi
      rw [hsuff, specBindingRule_get pos kw m.arg_spec 0 i hi, Nat.zero_add]
  by_cases hA : pos.length > m.arg_spec.length
  · rw [if_pos hA] at hcases
    rw [hcases] at h
    exact absurd h (by simp)
  · rw [if_neg hA] at hcases
    rcases hbind : bindLoop pos kw m.arg_spec 0 [] [] with e | ⟨argVals, used0⟩
    · rw [hbind] at hcases
      dsimp only at hcases
      rw [hcases] at h
      exact absurd h (by simp)
    · rw [hbind] at hcases
      dsimp only at hcases
      have hveq := bindLoop_vals_eq pos kw m.arg_spec 0 [] [] argVals used0 hbind
      simp only [List.reverse_nil, List.nil_append] at hveq
      rcases kw with _ | pairs
      · dsimp only at hcases
        rw [hcases] at h
        simp only [CallPre.run.injEq] at h
        rw [← h.1, hveq]
      · dsimp only at hcases
        rcases hscan : pairs.find?
            (fun p => ! (if m.caller_reference then
              "caller" :: used0 else used0).contains p.1) with _ | p
        · rw [hscan] at hcases
          rw [hcases] at h
          simp only [CallPre.run.injEq] at h
          rw [← h.1, hveq]
        · rw [hscan] at hcases
          rw [hcases] at h
          exact absurd h (by simp)

/-- Witness for C4 at a concrete successful invocation. -/
theorem macro_binding_left_to_right_witness :
    ([Value.int 1, Value.int 5] : List Value).length =
      (MacroData.mk "m" ["a", "b"] 0 7 Value.null false).arg_spec.length :=
  ((macro_binding_left_to_right ⟨"m", ["a", "b"], 0, 7, Value.null, false⟩ 7
    [Value.int 1, Value.kwargsObj [("b", Value.int 5)]]
    [Value.int 1, Value.int 5] Option.none (by decide)).1).1

/-- C1: `cycle(v0, …, v(n-1))` returns `v[index mod n]` whenever `n > 0`, but
the zero-argument call does not return undefined: the source evaluates
`idx % args.len()`, and a Rust remainder with a zero divisor panics, so the
embedded function faults there instead of being total. -/
theorem loop_cycle_mod_and_zero_arg_panic (lp : LoopStatus) :
    (∀ args : List Value, args ≠ [] →
      Loop.call_method lp "cycle" args =
        .ok (args.getD (lp.idx % args.length) Value.undefined) lp) ∧
    Loop.call_method lp "cycle" [] =
      .panicked "attempt to calculate the remainder with a divisor of zero" := by
  constructor
  · intro args hne
    have hlen : args.length ≠ 0 := fun h0 => hne (List.length_eq_zero.mp h0)
    have hlt : lp.idx % args.length < args.length :=
      Nat.mod_lt _ (Nat.pos_of_ne_zero hlen)
    unfold Loop.call_method
    rw [if_neg (by decide), if_pos rfl, if_neg hlen]
    simp [List.getD_eq_getElem?_getD, List.getElem?_eq_getElem hlt]
  · rfl

/-- Witness for C1 at a concrete loop and arguments. -/
theorem loop_cycle_mod_and_zero_arg_panic_witness :
    Loop.call_method ⟨5, 1, 0, Option.none⟩ "cycle" [Value.int 10, Value.int 20] =
      .ok (Value.int 20) ⟨5, 1, 0, Option.none⟩ ∧
    Loop.call_method ⟨5, 1, 0, Option.none⟩ "cycle" [] =
      .panicked "attempt to calculate the remainder with a divisor of zero" := by
  have h := loop_cycle_mod_and_zero_arg_panic ⟨5, 1, 0, Option.none⟩
  refine ⟨?_, h.2⟩
  have h1 := h.1 [Value.int 10, Value.int 20] (by decide)
  simpa using h1

/-- C2, counterexample: `length` (here on a loop whose stored count is 0, at
index 0) reads as the number 0, not as undefined — the embedded `LoopStatus`
stores a mandatory count, so no attribute of an iterated loop ever reads as
undefined. -/
theorem loop_unknown_length_counterexample :
    Loop.get_field ⟨0, 0, 0, Option.none⟩ (Value.fromString "length") =
        some (Value.int 0) ∧
      some (Value.int 0) ≠ some (Value.undefined) := by
  decide

/-- C2, amended: `LoopStatus.len` is a plain count with no unknown-length
state; for every loop object and every non-sentinel index, `length`,
`revindex`, `revindex0` and `last` read as the concrete values `len`,
`len − idx`, `len − idx − 1` (saturating) and `len == 0 ∨ idx == len − 1`,
and no attribute reads as undefined. -/
theorem loop_length_attrs_always_defined (lp : LoopStatus)
    (h : lp.idx ≠ USIZE_MAX) :
    Loop.get_field lp (Value.fromString "length") = some (Value.int lp.len) ∧
    Loop.get_field lp (Value.fromString "revindex") =
      some (Value.int ((lp.len - lp.idx : Nat))) ∧
    Loop.get_field lp (Value.fromString "revindex0") =
      some (Value.int ((lp.len - lp.idx - 1 : Nat))) ∧
    Loop.get_field lp (Value.fromString "last") =
      some (Value.bool (lp.len == 0 || lp.idx == lp.len - 1)) ∧
    ∀ name : String,
      Loop.get_field lp (Value.fromString name) ≠ some Value.undefined := by
  refine ⟨?_, ?_, ?_, ?_, ?_⟩
  · simp only [Loop.get_field, Value.fromString, Value.as_str]; rw [if_neg h]
  · simp only [Loop.get_field, Value.fromString, Value.as_str]; rw [if_neg h]
  · simp only [Loop.get_field, Value.fromString, Value.as_str]; rw [if_neg h]
  · simp only [Loop.get_field, Value.fromString, Value.as_str]; rw [if_neg h]
  · intro name
    simp only [Loop.get_field, Value.fromString, Value.as_str]
    rw [if_neg h]
    split <;> simp_all

/-- Witness for C2's amended theorem at a concrete loop. -/
theorem loop_length_attrs_always_defined_witness :
    Loop.get_field ⟨5, 2, 0, Option.none⟩ (Value.fromString "length") =
      some (Value.int 5) ∧
    Loop.get_field ⟨5, 2, 0, Option.none⟩ (Value.fromString "revindex") =
      some (Value.int 3) := by
  have h := loop_length_attrs_always_defined ⟨5, 2, 0, Option.none⟩ (by decide)
  exact ⟨h.1, h.2.1⟩

/-- C6: `changed(v0, …)` returns true and stores the given tuple exactly when
it differs from the stored tuple (or nothing is stored yet, so the first call
is always "changed"), and returns false leaving the state unchanged when the
tuples are equal. -/
theorem loop_changed_semantics (lp : LoopStatus) (args : List Value) :
    (lp.last_changed_value ≠ some args →
      Loop.call_method lp "changed" args =
        .ok (Value.bool true) { lp with last_changed_value := some args }) ∧
    (lp.last_changed_value = some args →
      Loop.call_method lp "changed" args = .ok (Value.bool false) lp) := by
  constructor
  · intro hne
    unfold Loop.call_method
    rw [if_pos rfl, if_pos hne]
  · intro heq
    unfold Loop.call_method
    rw [if_pos rfl, if_neg (by simp [heq])]

/-- Witness for C6: a first call returns true and stores the tuple, an
immediate repeat returns false, a differing tuple returns true again. -/
theorem loop_changed_semantics_witness :
    Loop.call_method ⟨3, 0, 0, Option.none⟩ "changed" [Value.int 1] =
      .ok (Value.bool true) ⟨3, 0, 0, some [Value.int 1]⟩ ∧
    Loop.call_method ⟨3, 0, 0, some [Value.int 1]⟩ "changed" [Value.int 1] =
      .ok (Value.bool false) ⟨3, 0, 0, some [Value.int 1]⟩ ∧
    Loop.call_method ⟨3, 0, 0, some [Value.int 1]⟩ "changed" [Value.int 2] =
      .ok (Value.bool true) ⟨3, 0, 0, some [Value.int 2]⟩ := by
  refine ⟨?_, ?_, ?_⟩
  · exact (loop_changed_semantics ⟨3, 0, 0, Option.none⟩ [Value.int 1]).1
      (by decide)
  · exact (loop_changed_semantics ⟨3, 0, 0, some [Value.int 1]⟩ [Value.int 1]).2
      rfl
  · exact (loop_changed_semantics ⟨3, 0, 0, some [Value.int 1]⟩ [Value.int 2]).1
      (by decide)

/-- C7: on a loop of known length 5 that has begun iterating, for every index
in 0..5: `index0 = idx`, `index = idx + 1`, `first ↔ idx = 0`,
`last ↔ idx = 4`, `revindex = 5 − idx`, `revindex0 = 4 − idx`. -/
theorem loop_len5_fields (idx depth : Nat) (lc : Option (List Value))
    (h : idx < 5) :
    Loop.get_field ⟨5, idx, depth, lc⟩ (Value.fromString "index0") =
      some (Value.int idx) ∧
    Loop.get_field ⟨5, idx, depth, lc⟩ (Value.fromString "index") =
      some (Value.int (idx + 1)) ∧
    Loop.get_field ⟨5, idx, depth, lc⟩ (Value.fromString "first") =
      some (Value.bool (idx == 0)) ∧
    Loop.get_field ⟨5, idx, depth, lc⟩ (Value.fromString "last") =
      some (Value.bool (idx == 4)) ∧
    Loop.get_field ⟨5, idx, depth, lc⟩ (Value.fromString "revindex") =
      some (Value.int (5 - idx)) ∧
    Loop.get_field ⟨5, idx, depth, lc⟩ (Value.fromString "revindex0") =
      some (Value.int (4 - idx)) := by
  have hbig : (5 : Nat) ≤ 2 ^ 64 - 1 := by norm_num
  have hne : idx ≠ USIZE_MAX := by
    unfold USIZE_MAX; omega
  refine ⟨?_, ?_, ?_, ?_, ?_, ?_⟩ <;>
    simp only [Loop.get_field, Value.fromString, Value.as_str] <;>
    rw [if_neg hne] <;>
    simp only [Option.some.injEq, Value.int.injEq, Value.bool.injEq] <;>
    first
      | rfl
      | omega

/-- Witness for C7 at index 2. -/
theorem loop_len5_fields_witness :
    Loop.get_field ⟨5, 2, 0, Option.none⟩ (Value.fromString "index0") =
      some (Value.int 2) ∧
    Loop.get_field ⟨5, 2, 0, Option.none⟩ (Value.fromString "revindex0") =
      some (Value.int 2) := by
  have h := loop_len5_fields 2 0 Option.none (by decide)
  exact ⟨h.1, h.2.2.2.2.2⟩

/-- C8: while the index counter holds the never-iterated sentinel `!0`, every
one of the nine attributes reads as undefined. -/
theorem loop_sentinel_all_undefined (lp : LoopStatus) (h : lp.idx = USIZE_MAX)
    (name : String) (hname : name ∈ Loop.static_fields) :
    Loop.get_field lp (Value.fromString name) = some Value.undefined := by
  clear hname
  simp only [Loop.get_field, Value.fromString, Value.as_str]
  rw [if_pos h]

/-- Witness for C8 at the sentinel index. -/
theorem loop_sentinel_all_undefined_witness :
    Loop.get_field ⟨5, USIZE_MAX, 0, Option.none⟩ (Value.fromString "index0") =
      some Value.undefined := by
  exact loop_sentinel_all_undefined ⟨5, USIZE_MAX, 0, Option.none⟩ rfl
    "index0" (by decide)

/-- C5: every misused call shape fails with `InvalidOperation` — a direct
call of the loop value (no method name) for all arguments, a macro called
with any method name for all arguments, and a macro whose stored render-pass
identity differs from the current state's for all arguments (so before any
argument is examined). -/
theorem misused_call_shapes_invalid_operation :
    (∀ (lp : LoopStatus) (args : List Value),
      Loop.call lp args =
        .error ⟨.invalidOperation,
          some "loop cannot be called if reassigned to different variable"⟩) ∧
    (∀ (m : MacroData) (stateId : Int) (name : String) (args : List Value),
      m.call_pre stateId (some name) args =
        .err ⟨.invalidOperation, some "cannot call methods on macro"⟩) ∧
    (∀ (m : MacroData) (stateId : Int) (args : List Value),
      stateId ≠ m.state_id →
        m.call_pre stateId Option.none args =
          .err ⟨.invalidOperation,
            some "cannot call this macro. template state went away."⟩) := by
  refine ⟨fun _ _ => rfl, fun m stateId name args => ?_, fun m stateId args h => ?_⟩
  · unfold MacroData.call_pre
    rw [if_pos (by simp)]
  · unfold MacroData.call_pre
    rw [if_neg (by simp), if_pos h]

/-- Witness for C5 at concrete loop, macro, and arguments. -/
theorem misused_call_shapes_invalid_operation_witness :
    Loop.call ⟨5, 0, 0, Option.none⟩ [Value.int 1] =
      .error ⟨.invalidOperation,
        some "loop cannot be called if reassigned to different variable"⟩ ∧
    MacroData.call_pre ⟨"m", ["a"], 0, 7, Value.null, false⟩ 7 (some "foo")
        [Value.int 1] =
      .err ⟨.invalidOperation, some "cannot call methods on macro"⟩ ∧
    MacroData.call_pre ⟨"m", ["a"], 0, 7, Value.null, false⟩ 8 Option.none
        [Value.int 1] =
      .err ⟨.invalidOperation,
        some "cannot call this macro. template state went away."⟩ := by
  have h := misused_call_shapes_invalid_operation
  exact ⟨h.1 ⟨5, 0, 0, Option.none⟩ [Value.int 1],
    h.2.1 ⟨"m", ["a"], 0, 7, Value.null, false⟩ 7 "foo" [Value.int 1],
    h.2.2 ⟨"m", ["a"], 0, 7, Value.null, false⟩ 8 [Value.int 1] (by decide)⟩

/-- C9: when the argument-processing prefix succeeds and the body evaluation
returns the rendered string, the macro call returns that string wrapped as
escape-exempt (safe) when auto-escape is active, and as a plain string when
auto-escape is `None`. -/
theorem macro_output_escape_wrapping (m : MacroData) (stateId : Int)
    (autoEscape : AutoEscape)
    (evalBody : List Value → Option Value → Except Error String)
    (args argValues : List Value) (caller : Option Value) (rv : String)
    (hpre : m.call_pre stateId Option.none args = .run argValues caller)
    (hev : evalBody argValues caller = .ok rv) :
    (autoEscape ≠ AutoEscape.noEscape →
      m.call stateId autoEscape evalBody Option.none args =
        .ok (Value.from_safe_string rv)) ∧
    (autoEscape = AutoEscape.noEscape →
      m.call stateId autoEscape evalBody Option.none args =
        .ok (Value.fromString rv)) := by
  constructor
  · intro hauto
    unfold MacroData.call
    rw [hpre]
    dsimp only
    rw [hev]
    dsimp only
    rw [if_pos hauto]
  · intro hauto
    unfold MacroData.call
    rw [hpre]
    dsimp only
    rw [hev]
    dsimp only
    rw [if_neg (by simp [hauto])]

/-- Witness for C9 with a concrete macro and body evaluation, at an active
and at a disabled auto-escape mode. -/
theorem macro_output_escape_wrapping_witness :
    MacroData.call ⟨"m", [], 0, 7, Value.null, false⟩ 7 AutoEscape.html
        (fun _ _ => .ok "out") Option.none [] =
      .ok (Value.from_safe_string "out") ∧
    MacroData.call ⟨"m", [], 0, 7, Value.null, false⟩ 7 AutoEscape.noEscape
        (fun _ _ => .ok "out") Option.none [] =
      .ok (Value.fromString "out") := by
  constructor
  · exact (macro_output_escape_wrapping ⟨"m", [], 0, 7, Value.null, false⟩ 7
      AutoEscape.html (fun _ _ => .ok "out") [] [] Option.none "out"
      (by decide) rfl).1 (by decide)
  · exact (macro_output_escape_wrapping ⟨"m", [], 0, 7, Value.null, false⟩ 7
      AutoEscape.noEscape (fun _ _ => .ok "out") [] [] Option.none "out"
      (by decide) rfl).2 rfl

/-- C10: attribute lookup on a macro succeeds exactly for the string keys
`name`, `arguments` and `caller`, yielding the declared name, the ordered
parameter-name sequence, and the caller-block flag; every other key yields
nothing, and enumeration lists exactly these three keys. -/
theorem macro_get_value_exactly_three (m : MacroData) :
    (∀ key : Value, (m.get_value key).isSome ↔
      (key.as_str = some "name" ∨ key.as_str = some "arguments" ∨
        key.as_str = some "caller")) ∧
    m.get_value (Value.fromString "name") = some (Value.fromString m.name) ∧
    m.get_value (Value.fromString "arguments") =
      some (Value.seq (m.arg_spec.map (fun s => Value.fromString s))) ∧
    m.get_value (Value.fromString "caller") =
      some (Value.bool m.caller_reference) ∧
    m.enumeration = ["name", "arguments", "caller"] := by
  refine ⟨?_, rfl, rfl, rfl, rfl⟩
  intro key
  unfold MacroData.get_value
  split <;> simp_all

end Minijinja
